import Mathlib

/-
  Verification of the SMICP protocol core (Merkle verifiers, anchor registry,
  sidechain verifier, 2PC coordinator) against its natural-language
  specification.  The definitions below are shallow embeddings of the
  JavaScript chaincode (chaincode/anchor-registry.js, chaincode/scimp-coordinator.js,
  the sidechain verifier chaincode) and of the Solidity contracts
  (AnchorRegistry.sol, SidechainVerifier.sol, ScimpCoordinator.sol).
  Machine words are Nats reduced mod 2^32; byte strings are lists of Nats.
-/

namespace Scimp

/-! ## SHA-256 (both verifiers hash with sha256; digests are hex strings
    in the chaincode and raw 32-byte words in the EVM contract) -/

def w32 : Nat := 4294967296

def add32 (a b : Nat) : Nat := (a + b) % w32

def rotr (n x : Nat) : Nat := ((x >>> n) ||| (x <<< (32 - n))) % w32

def chf (x y z : Nat) : Nat := (x &&& y) ^^^ ((x ^^^ 4294967295) &&& z)

def majf (x y z : Nat) : Nat := (x &&& y) ^^^ (x &&& z) ^^^ (y &&& z)

def bsig0 (x : Nat) : Nat := rotr 2 x ^^^ rotr 13 x ^^^ rotr 22 x

def bsig1 (x : Nat) : Nat := rotr 6 x ^^^ rotr 11 x ^^^ rotr 25 x

def ssig0 (x : Nat) : Nat := rotr 7 x ^^^ rotr 18 x ^^^ (x >>> 3)

def ssig1 (x : Nat) : Nat := rotr 17 x ^^^ rotr 19 x ^^^ (x >>> 10)

def shaK : List Nat :=
  [1116352408, 1899447441, 3049323471, 3921009573, 961987163,
   1508970993, 2453635748, 2870763221, 3624381080, 310598401,
   607225278, 1426881987, 1925078388, 2162078206, 2614888103,
   3248222580, 3835390401, 4022224774, 264347078, 604807628,
   770255983, 1249150122, 1555081692, 1996064986, 2554220882,
   2821834349, 2952996808, 3210313671, 3336571891, 3584528711,
   113926993, 338241895, 666307205, 773529912, 1294757372,
   1396182291, 1695183700, 1986661051, 2177026350, 2456956037,
   2730485921, 2820302411, 3259730800, 3345764771, 3516065817,
   3600352804, 4094571909, 275423344, 430227734, 506948616,
   659060556, 883997877, 958139571, 1322822218, 1537002063,
   1747873779, 1955562222, 2024104815, 2227730452, 2361852424,
   2428436474, 2756734187, 3204031479, 3329325298]

structure Hash8 where
  a : Nat
  b : Nat
  c : Nat
  d : Nat
  e : Nat
  f : Nat
  g : Nat
  h : Nat
deriving Repr, DecidableEq

def initH : Hash8 :=
  ⟨1779033703, 3144134277, 1013904242, 2773480762, 1359893119, 2600822924, 528734635, 1541459225⟩

def toWords : List Nat → List Nat
  | b0 :: b1 :: b2 :: b3 :: rest => (((b0 * 256 + b1) * 256 + b2) * 256 + b3) :: toWords rest
  | _ => []

def extendW : Nat → Array Nat → Array Nat
  | 0, w => w
  | n + 1, w =>
    let i := w.size
    let nw := add32 (add32 (ssig1 (w.getD (i - 2) 0)) (w.getD (i - 7) 0))
                    (add32 (ssig0 (w.getD (i - 15) 0)) (w.getD (i - 16) 0))
    extendW n (w.push nw)

def shaRound (s : Hash8) (k wi : Nat) : Hash8 :=
  let t1 := add32 s.h (add32 (bsig1 s.e) (add32 (chf s.e s.f s.g) (add32 k wi)))
  let t2 := add32 (bsig0 s.a) (majf s.a s.b s.c)
  ⟨add32 t1 t2, s.a, s.b, s.c, add32 s.d t1, s.e, s.f, s.g⟩

def compressBlock (s : Hash8) (block : List Nat) : Hash8 :=
  let w := extendW 48 (toWords block).toArray
  let t := (List.zip shaK w.toList).foldl (fun st p => shaRound st p.1 p.2) s
  ⟨add32 s.a t.a, add32 s.b t.b, add32 s.c t.c, add32 s.d t.d,
   add32 s.e t.e, add32 s.f t.f, add32 s.g t.g, add32 s.h t.h⟩

def chunks64Aux : Nat → List Nat → List (List Nat)
  | 0, _ => []
  | _, [] => []
  | n + 1, l => l.take 64 :: chunks64Aux n (l.drop 64)

def chunks64 (l : List Nat) : List (List Nat) := chunks64Aux (l.length + 1) l

def lenBytes (n : Nat) : List Nat :=
  [(n >>> 56) % 256, (n >>> 48) % 256, (n >>> 40) % 256, (n >>> 32) % 256,
   (n >>> 24) % 256, (n >>> 16) % 256, (n >>> 8) % 256, n % 256]

def padBytes (msg : List Nat) : List Nat :=
  msg ++ [128] ++ List.replicate ((119 - msg.length % 64) % 64) 0 ++ lenBytes (msg.length * 8)

def wordBytes (n : Nat) : List Nat :=
  [(n >>> 24) % 256, (n >>> 16) % 256, (n >>> 8) % 256, n % 256]

def sha256Bytes (msg : List Nat) : List Nat :=
  let s := (chunks64 (padBytes msg)).foldl compressBlock initH
  wordBytes s.a ++ wordBytes s.b ++ wordBytes s.c ++ wordBytes s.d ++
  wordBytes s.e ++ wordBytes s.f ++ wordBytes s.g ++ wordBytes s.h

def hexDigit (n : Nat) : Char := if n < 10 then Char.ofNat (48 + n) else Char.ofNat (87 + n)

def byteHex (b : Nat) : List Char := [hexDigit (b / 16 % 16), hexDigit (b % 16)]

def hexChars (l : List Nat) : List Char := (l.map byteHex).foldr (· ++ ·) []

def bytesToHex (l : List Nat) : String := String.mk (hexChars l)

/-- A list of byte values: every entry is below 256. -/
def ByteList (l : List Nat) : Prop := ∀ b ∈ l, b < 256

/-- UTF-8 bytes of an ASCII string (all strings handled by the protocol are
    ASCII: hex digests, identifiers, decimal numbers). -/
def strBytes (s : String) : List Nat := s.data.map Char.toNat

/-- Digest in lowercase hex of an ASCII string, as produced by
    crypto.createHash in the chaincode. -/
def sha256Hex (s : String) : String := bytesToHex (sha256Bytes (strBytes s))


/-! ## Merkle proof verifiers

The Fabric chaincode verifier (sidechain verifier chaincode, verifyMerkleProof)
works on lowercase hex digest strings; each proof element is an object with a
hash and a left flag.  When the flag is set it hashes computed ++ element.hash,
otherwise element.hash ++ computed. -/

structure ProofElem where
  hash : String
  left : Bool
deriving Repr, DecidableEq

/-- Embedding of verifyMerkleProof from the sidechain verifier chaincode:
    fold over the proof, hashing the hex-string concatenation with sha256,
    then compare with the expected root string. -/
def verifyMerkleProof (leaf : String) (proof : List ProofElem) (root : String) : Bool :=
  (proof.foldl
    (fun computed e =>
      if e.left then sha256Hex (computed ++ e.hash) else sha256Hex (e.hash ++ computed))
    leaf) == root

/-- Embedding of SidechainVerifier.verifyProof from the EVM contract:
    leaf, siblings and root are 32-byte words; when the flag is set it hashes
    sibling ++ computed, otherwise computed ++ sibling (raw byte concatenation,
    sha256).  The two calldata arrays (proof, lefts) are passed zipped. -/
def evmVerifyProof (leaf : List Nat) (proof : List (List Nat × Bool)) (expectedRoot : List Nat) : Bool :=
  (proof.foldl
    (fun computed p =>
      if p.2 then sha256Bytes (p.1 ++ computed) else sha256Bytes (computed ++ p.1))
    leaf) == expectedRoot

/-- The equivalence the spec asserts for claim C2: at a common input (32-byte
    values, rendered as hex strings for the chaincode verifier), the two
    verifiers return the same boolean. -/
def verifiersAgree (leaf : List Nat) (proof : List (List Nat × Bool)) (root : List Nat) : Prop :=
  verifyMerkleProof (bytesToHex leaf) (proof.map fun p => ⟨bytesToHex p.1, p.2⟩) (bytesToHex root)
    = evmVerifyProof leaf proof root

/-- Modelled from the spec: the fold the claim describes for verifyProof —
    hashing (sibling ++ accumulator) when the element records that the sibling
    is on the left, and (accumulator ++ sibling) when it records that the
    sibling is on the right (the spec data model calls the flag isLeftSibling;
    the generator, lib/merkle.js, is not part of the sources). -/
def specClaimFold (leaf : String) (proof : List ProofElem) : String :=
  proof.foldl
    (fun acc e => if e.left then sha256Hex (e.hash ++ acc) else sha256Hex (acc ++ e.hash))
    leaf

/-- Negate the left flag of a proof element. -/
def flipElem (e : ProofElem) : ProofElem := ⟨e.hash, !e.left⟩

/-- Concrete 32-byte leaf used in the Merkle counterexamples. -/
def cexLeaf : List Nat := List.replicate 32 0

/-- Concrete 32-byte sibling used in the Merkle counterexamples. -/
def cexSib : List Nat := List.replicate 32 17

/-- The root (as bytes) that the chaincode verifier computes for cexLeaf and
    cexSib with the left flag set: sha256 of the ASCII hex concatenation. -/
def cexRoot : List Nat := sha256Bytes (strBytes (bytesToHex cexLeaf ++ bytesToHex cexSib))


/-! ## Association lists with JavaScript object semantics

The chaincode keeps its ledger values as JSON objects; keys are unique, an
update keeps the key position and a new key is appended. -/

def lookupA {α : Type} (d : List (String × α)) (k : String) : Option α :=
  match d with
  | [] => none
  | (k2, v) :: t => if k2 = k then some v else lookupA t k

def insertA {α : Type} (d : List (String × α)) (k : String) (v : α) : List (String × α) :=
  match d with
  | [] => [(k, v)]
  | (k2, v2) :: t => if k2 = k then (k, v) :: t else (k2, v2) :: insertA t k v

def removeA {α : Type} (d : List (String × α)) (k : String) : List (String × α) :=
  match d with
  | [] => []
  | (k2, v2) :: t => if k2 = k then t else (k2, v2) :: removeA t k

/-! ## AnchorRegistry (chaincode/anchor-registry.js) -/

structure Sig where
  validator : String
  sigData : String
deriving Repr, DecidableEq

structure AnchorRecord where
  chainId : String
  blockNumber : Nat
  merkleRoot : String
  timestamp : Nat
  txId : String
  validatorSignatures : List Sig
  metadata : String
  status : String
deriving Repr, DecidableEq

structure RegState where
  validators : List String
  requiredSignatures : Nat
  anchors : List (String × AnchorRecord)
  chainIndex : List (String × String)
deriving Repr, DecidableEq

inductive RegErr
  | missingArgs
  | duplicateAnchor (chainId blockNumber : String)
  | insufficientSignatures (got required : Nat)
  | invalidSignatures (valid : Nat)
  | validatorExists (validatorId : String)
deriving Repr, DecidableEq

/-- JavaScript parseInt on the decimal digit strings the protocol passes
    around as block numbers. -/
def parseIntNat (s : String) : Nat := s.data.foldl (fun n c => n * 10 + (c.toNat - 48)) 0

def createRootKey (chainId blockNumber : String) : String :=
  "root~" ++ chainId ++ "~" ++ blockNumber

def createMessageHash (chainId blockNumber merkleRoot : String) : String :=
  sha256Hex (chainId ++ ":" ++ blockNumber ++ ":" ++ merkleRoot)

/-- Embedding of verifySignatures from the anchor registry chaincode.  The
    source computes an expected digest from messageHash and the validator but
    never compares it; an entry counts whenever its validator field is truthy,
    names a member of the validator set, and its signature string is
    non-empty.  Duplicates are kept. -/
def verifySignatures (messageHash : String) (signatures : List Sig) (validators : List String) :
    List Sig :=
  signatures.filter fun s =>
    (s.validator != "") && validators.contains s.validator && (s.sigData != "")

def initRegistry : RegState :=
  { validators := ["validator1@org1.example.com", "validator2@org2.example.com",
                   "validator3@org3.example.com"],
    requiredSignatures := 2,
    anchors := [],
    chainIndex := [] }

/-- Embedding of anchorRoot from the anchor registry chaincode.  now and txId
    stand for the transaction context; a thrown Error is the error component,
    and the returned state reflects the writes performed before the throw
    (none on these paths). -/
def anchorRoot (st : RegState) (now : Nat) (txId : String)
    (chainId blockNumber merkleRoot : String) (signatures : List Sig) (metadata : String) :
    Except RegErr AnchorRecord × RegState :=
  if chainId = "" ∨ blockNumber = "" ∨ merkleRoot = "" then (.error .missingArgs, st)
  else
    let rootKey := createRootKey chainId blockNumber
    match lookupA st.anchors rootKey with
    | some _ => (.error (.duplicateAnchor chainId blockNumber), st)
    | none =>
      if signatures.length < st.requiredSignatures then
        (.error (.insufficientSignatures signatures.length st.requiredSignatures), st)
      else
        let messageHash := createMessageHash chainId blockNumber merkleRoot
        let validSignatures := verifySignatures messageHash signatures st.validators
        if validSignatures.length < st.requiredSignatures then
          (.error (.invalidSignatures validSignatures.length), st)
        else
          let anchored : AnchorRecord :=
            { chainId := chainId, blockNumber := parseIntNat blockNumber,
              merkleRoot := merkleRoot, timestamp := now, txId := txId,
              validatorSignatures := validSignatures, metadata := metadata,
              status := "ANCHORED" }
          (.ok anchored,
           { st with anchors := insertA st.anchors rootKey anchored,
                     chainIndex := insertA st.chainIndex
                       ("chain~" ++ chainId ++ "~" ++ blockNumber) rootKey })

/-- Embedding of addValidator from the anchor registry chaincode. -/
def addValidator (st : RegState) (validatorId : String) : Except RegErr String × RegState :=
  if st.validators.contains validatorId then (.error (.validatorExists validatorId), st)
  else (.ok validatorId, { st with validators := st.validators ++ [validatorId] })

/-! ## SidechainVerifier (sidechain verifier chaincode) -/

structure TrustedRoot where
  sourceChain : String
  blockNumber : Nat
  merkleRoot : String
  timestamp : Nat
  relayProof : String
  status : String
  verifiedTransactions : List String
deriving Repr, DecidableEq

structure VerificationRecord where
  transactionHash : String
  sourceChain : String
  blockNumber : Nat
  transactionData : String
  timestamp : Nat
  verifier : String
  status : String
deriving Repr, DecidableEq

structure VerState where
  trustedRoots : List (String × TrustedRoot)
  verifications : List (String × VerificationRecord)
deriving Repr, DecidableEq

inductive VerErr
  | missingArgs
  | noTrustedRoot (sourceChain blockNumber : String)
  | proofInvalid
deriving Repr, DecidableEq

def initVerifier : VerState := ⟨[], []⟩

def trKey (sourceChain blockNumber : String) : String := sourceChain ++ ":" ++ blockNumber

/-- Embedding of setTrustedRoot from the sidechain verifier chaincode. -/
def setTrustedRoot (st : VerState) (now : Nat)
    (sourceChain blockNumber merkleRoot relayProof : String) :
    Except VerErr TrustedRoot × VerState :=
  if sourceChain = "" ∨ blockNumber = "" ∨ merkleRoot = "" then (.error .missingArgs, st)
  else
    let rootInfo : TrustedRoot :=
      { sourceChain := sourceChain, blockNumber := parseIntNat blockNumber,
        merkleRoot := merkleRoot, timestamp := now, relayProof := relayProof,
        status := "TRUSTED", verifiedTransactions := [] }
    (.ok rootInfo,
     { st with trustedRoots := insertA st.trustedRoots (trKey sourceChain blockNumber) rootInfo })

/-- Embedding of verifyTransaction from the sidechain verifier chaincode.
    The merkleProof argument is passed already parsed (the source rejects
    unparseable JSON, which the structured argument cannot be; its truthiness
    test on the JSON string is satisfied by any serialized array). -/
def verifyTransaction (st : VerState) (now : Nat) (verifierId : String)
    (sourceChain blockNumber transactionData : String) (merkleProof : List ProofElem) :
    Except VerErr VerificationRecord × VerState :=
  if sourceChain = "" ∨ blockNumber = "" ∨ transactionData = "" then (.error .missingArgs, st)
  else
    match lookupA st.trustedRoots (trKey sourceChain blockNumber) with
    | none => (.error (.noTrustedRoot sourceChain blockNumber), st)
    | some tr =>
      let transactionHash := sha256Hex transactionData
      if !(verifyMerkleProof transactionHash merkleProof tr.merkleRoot) then
        (.error .proofInvalid, st)
      else
        let vrec : VerificationRecord :=
          { transactionHash := transactionHash, sourceChain := sourceChain,
            blockNumber := parseIntNat blockNumber, transactionData := transactionData,
            timestamp := now, verifier := verifierId, status := "VERIFIED" }
        let tr2 := { tr with verifiedTransactions := tr.verifiedTransactions ++ [transactionHash] }
        (.ok vrec,
         { st with verifications := insertA st.verifications ("verification~" ++ transactionHash) vrec,
                   trustedRoots := insertA st.trustedRoots (trKey sourceChain blockNumber) tr2 })

/-! ## ScimpCoordinator (chaincode/scimp-coordinator.js)

The chaincode keeps four ledger values: the epoch~{id} records, ACTIVE_EPOCHS,
COMPLETED_EPOCHS and ABORTED_EPOCHS.  A thrown Error is modelled as the error
component of the result; the returned state keeps every write performed before
the throw (the timeout path of prepare writes the abort before throwing). -/

inductive EpochStatus
  | preparing
  | prepared
  | committed
  | aborted
  | completed
deriving Repr, DecidableEq

inductive PrepStatus
  | waiting
  | prepared
deriving Repr, DecidableEq

inductive ConfStatus
  | pending
  | confirmed
deriving Repr, DecidableEq

structure Prep where
  status : PrepStatus
  timestamp : Option Nat
  data : Option String
deriving Repr, DecidableEq

structure Conf where
  status : ConfStatus
  timestamp : Option Nat
deriving Repr, DecidableEq

structure Epoch where
  epochId : String
  status : EpochStatus
  participants : List String
  preparations : List (String × Prep)
  startTime : Nat
  timeout : Nat
  coordinator : String
  metadata : String
  phase : String
  commitConfirmations : Option (List (String × Conf))
  commitTime : Option Nat
  abortTime : Option Nat
  abortReason : Option String
  completionTime : Option Nat
deriving Repr, DecidableEq

structure CoordState where
  epochs : List (String × Epoch)
  active : List (String × Epoch)
  completed : List (String × Epoch)
  aborted : List (String × Epoch)
deriving Repr, DecidableEq

inductive CoordErr
  | missingArgs
  | emptyParticipants
  | duplicateEpoch (epochId : String)
  | epochNotFound (epochId : String)
  | wrongState (epochId : String) (status : EpochStatus)
  | notAParticipant (epochId participantId : String)
  | alreadyPrepared (epochId participantId : String)
  | epochTimedOut (epochId : String)
  | notAllPrepared (epochId : String)
  | committedEpochNotFound (epochId : String)
  | notCommitted (epochId : String)
deriving Repr, DecidableEq

structure PrepareResult where
  epochId : String
  participantId : String
  allPrepared : Bool
deriving Repr, DecidableEq

structure ConfirmResult where
  epochId : String
  participantId : String
  confirmed : Bool
  allConfirmed : Bool
deriving Repr, DecidableEq

def coordInit : CoordState := ⟨[], [], [], []⟩

def freshPrep : Prep := ⟨.waiting, none, none⟩

def prepOf (e : Epoch) (p : String) : Prep := (lookupA e.preparations p).getD freshPrep

def confOf (confs : List (String × Conf)) (p : String) : Conf :=
  (lookupA confs p).getD ⟨.pending, none⟩

/-- The every-participant-is-PREPARED check the chaincode performs in prepare
    and commit. -/
def allPrepared (e : Epoch) : Bool :=
  e.participants.all fun p => (prepOf e p).status == .prepared

/-- Embedding of beginEpoch.  The duplicate check reads ACTIVE_EPOCHS only,
    exactly as the source does. -/
def beginEpoch (st : CoordState) (now : Nat) (coordId epochId : String)
    (participants : List String) (timeout : Nat) (metadata : String) :
    Except CoordErr Epoch × CoordState :=
  if epochId = "" then (.error .missingArgs, st)
  else if participants.length = 0 then (.error .emptyParticipants, st)
  else
    match lookupA st.active epochId with
    | some _ => (.error (.duplicateEpoch epochId), st)
    | none =>
      let ep : Epoch :=
        { epochId := epochId, status := .preparing, participants := participants,
          preparations := participants.map fun p => (p, freshPrep),
          startTime := now, timeout := timeout, coordinator := coordId,
          metadata := metadata, phase := "PREPARE",
          commitConfirmations := none, commitTime := none, abortTime := none,
          abortReason := none, completionTime := none }
      (.ok ep,
       { st with active := insertA st.active epochId ep,
                 epochs := insertA st.epochs epochId ep })

/-- Embedding of the internal abortEpoch: no check of the current status, the
    epoch record is rewritten as ABORTED, removed from ACTIVE_EPOCHS and added
    to ABORTED_EPOCHS. -/
def abortEpochInternal (st : CoordState) (now : Nat) (epochId reason : String) :
    Except CoordErr Epoch × CoordState :=
  match lookupA st.epochs epochId with
  | none => (.error (.epochNotFound epochId), st)
  | some e =>
    let e2 := { e with
      status := .aborted, phase := "COMPLETED",
      abortTime := some now, abortReason := some reason }
    (.ok e2,
     { st with epochs := insertA st.epochs epochId e2,
               active := removeA st.active epochId,
               aborted := insertA st.aborted epochId e2 })

/-- Embedding of abort (public wrapper over abortEpoch). -/
def abort (st : CoordState) (now : Nat) (epochId reason : String) :
    Except CoordErr Epoch × CoordState :=
  abortEpochInternal st now epochId reason

/-- Embedding of prepare.  On timeout the source first aborts the epoch
    (persisting that write), then throws. -/
def prepare (st : CoordState) (now : Nat) (epochId participantId : String)
    (preparationData : String) : Except CoordErr PrepareResult × CoordState :=
  if epochId = "" ∨ participantId = "" then (.error .missingArgs, st)
  else
    match lookupA st.epochs epochId with
    | none => (.error (.epochNotFound epochId), st)
    | some e =>
      if e.status ≠ .preparing then (.error (.wrongState epochId e.status), st)
      else if ¬ e.participants.contains participantId then
        (.error (.notAParticipant epochId participantId), st)
      else if (prepOf e participantId).status ≠ .waiting then
        (.error (.alreadyPrepared epochId participantId), st)
      else if now - e.startTime > e.timeout then
        (.error (.epochTimedOut epochId), (abortEpochInternal st now epochId "TIMEOUT").2)
      else
        let e2 := { e with
          preparations :=
            insertA e.preparations participantId ⟨.prepared, some now, some preparationData⟩ }
        let allP := allPrepared e2
        let e3 := if allP then { e2 with status := .prepared, phase := "COMMIT" } else e2
        (.ok ⟨epochId, participantId, allP⟩,
         { st with epochs := insertA st.epochs epochId e3,
                   active := insertA st.active epochId e3 })

/-- Embedding of commit: requires the PREPARED status, re-checks that every
    participant is prepared, then records COMMITTED, initializes the commit
    confirmations to PENDING, moves the epoch from ACTIVE to COMPLETED. -/
def commit (st : CoordState) (now : Nat) (epochId : String) :
    Except CoordErr Epoch × CoordState :=
  if epochId = "" then (.error .missingArgs, st)
  else
    match lookupA st.epochs epochId with
    | none => (.error (.epochNotFound epochId), st)
    | some e =>
      if e.status ≠ .prepared then (.error (.wrongState epochId e.status), st)
      else if ¬ allPrepared e then (.error (.notAllPrepared epochId), st)
      else
        let e2 := { e with
          status := .committed, phase := "COMPLETED", commitTime := some now,
          commitConfirmations := some (e.participants.map fun p => (p, ⟨.pending, none⟩)) }
        (.ok e2,
         { st with epochs := insertA st.epochs epochId e2,
                   active := removeA st.active epochId,
                   completed := insertA st.completed epochId e2 })

/-- Embedding of confirmCommit.  The source looks the epoch up in
    COMPLETED_EPOCHS; a participantId that has no entry in the confirmation
    map is silently skipped, and the call still reports confirmed. -/
def confirmCommit (st : CoordState) (now : Nat) (epochId participantId : String) :
    Except CoordErr ConfirmResult × CoordState :=
  match lookupA st.completed epochId with
  | none => (.error (.committedEpochNotFound epochId), st)
  | some e =>
    if e.status ≠ .committed then (.error (.notCommitted epochId), st)
    else
      let confs := e.commitConfirmations.getD []
      let confs2 :=
        if (lookupA confs participantId).isSome then
          insertA confs participantId ⟨.confirmed, some now⟩
        else confs
      let allC := e.participants.all fun p => (confOf confs2 p).status == .confirmed
      let e2a := { e with commitConfirmations := some confs2 }
      let e2 := if allC then { e2a with status := .completed, completionTime := some now } else e2a
      (.ok ⟨epochId, participantId, true, allC⟩,
       { st with completed := insertA st.completed epochId e2,
                 epochs := insertA st.epochs epochId e2 })

/-- Embedding of cleanupTimeouts: iterate over a snapshot of ACTIVE_EPOCHS and
    abort every epoch whose elapsed time exceeds its timeout. -/
def cleanupTimeouts (st : CoordState) (now : Nat) : List String × CoordState :=
  st.active.foldl
    (fun acc p =>
      if now - p.2.startTime > p.2.timeout then
        (acc.1 ++ [p.1], (abortEpochInternal acc.2 now p.1 "TIMEOUT").2)
      else acc)
    ([], st)

/-! ## Reachable coordinator states -/

inductive Op
  | beginOp (now : Nat) (coordId epochId : String) (participants : List String)
            (timeout : Nat) (metadata : String)
  | prepareOp (now : Nat) (epochId participantId data : String)
  | commitOp (now : Nat) (epochId : String)
  | abortOp (now : Nat) (epochId reason : String)
  | confirmOp (now : Nat) (epochId participantId : String)
  | cleanupOp (now : Nat)
deriving Repr

def applyOp (st : CoordState) : Op → CoordState
  | .beginOp now c id ps t m => (beginEpoch st now c id ps t m).2
  | .prepareOp now id pid d => (prepare st now id pid d).2
  | .commitOp now id => (commit st now id).2
  | .abortOp now id r => (abort st now id r).2
  | .confirmOp now id pid => (confirmCommit st now id pid).2
  | .cleanupOp now => (cleanupTimeouts st now).2

/-- Every state the coordinator chaincode can reach from its initial ledger,
    as the result of a sequence of invocations. -/
def runOps (ops : List Op) : CoordState := ops.foldl applyOp coordInit

/-- Success test for a result, as the callers of the chaincode observe it. -/
def isOkE {ε α : Type} : Except ε α → Bool
  | .ok _ => true
  | .error _ => false

/-- The per-epoch invariant the coordinator maintains on every stored epoch
    record: a non-empty participant set, PREPARED only when every participant
    is prepared, and PREPARING only while some participant is not. -/
def EpochInv (e : Epoch) : Prop :=
  e.participants ≠ []
  ∧ (e.status = .prepared → allPrepared e = true)
  ∧ (e.status = .preparing → allPrepared e = false)

/-- Every entry of a ledger store satisfies the epoch invariant and has a
    non-empty key. -/
def StoreInv (d : List (String × Epoch)) : Prop :=
  ∀ p ∈ d, EpochInv p.2 ∧ p.1 ≠ ""

def CoordInv (st : CoordState) : Prop :=
  StoreInv st.epochs ∧ StoreInv st.active ∧ StoreInv st.completed ∧ StoreInv st.aborted

/-! ## Concrete runs used by the failing-input theorems and witnesses -/

/-- A coordinator state in which epoch e1 with sole participant A has been
    begun, prepared and committed. -/
def committedE1 : CoordState :=
  runOps [.beginOp 0 "coord" "e1" ["A"] 1000 "m", .prepareOp 10 "e1" "A" "d", .commitOp 20 "e1"]

/-- committedE1 after the lone participant confirmed: epoch e1 is COMPLETED. -/
def completedE1 : CoordState := (confirmCommit committedE1 25 "e1" "A").2

/-- A coordinator state in which epoch e3 was begun and then aborted. -/
def abortedE3 : CoordState :=
  runOps [.beginOp 0 "coord" "e3" ["A"] 1000 "m", .abortOp 10 "e3" "USER"]

/-- A coordinator state holding an epoch e2 begun at time 0 with a 1000 ms
    timeout and two participants, none prepared yet. -/
def timeoutSt : CoordState := runOps [.beginOp 0 "coord" "e2" ["A", "B"] 1000 "m"]

/-- The epoch record timeoutSt stores for e2. -/
def timeoutEpoch : Epoch :=
  { epochId := "e2", status := .preparing, participants := ["A", "B"],
    preparations := [("A", freshPrep), ("B", freshPrep)], startTime := 0, timeout := 1000,
    coordinator := "coord", metadata := "m", phase := "PREPARE",
    commitConfirmations := none, commitTime := none, abortTime := none,
    abortReason := none, completionTime := none }

/-- Operations taking epoch e1 to the PREPARED status. -/
def preparedOpsW : List Op := [.beginOp 0 "c" "e1" ["A"] 1000 "m", .prepareOp 10 "e1" "A" "d"]

/-- An anchor registry state already holding an anchor for chain c, block 1. -/
def regW : RegState :=
  (anchorRoot initRegistry 5 "t0" "c" "1" "r"
    [⟨"validator1@org1.example.com", "s1"⟩, ⟨"validator2@org2.example.com", "s2"⟩] "m").2

/-- Two copies of a single validator's (unverifiable) signature. -/
def c1sigs : List Sig :=
  [⟨"validator1@org1.example.com", "sig"⟩, ⟨"validator1@org1.example.com", "sig"⟩]

/-- Transaction data used in the verifier idempotence analysis. -/
def vTxData : String := "tx0"

/-- With an empty proof the chaincode verifier accepts exactly when the
    trusted root equals the leaf hash, so this root makes vTxData verifiable. -/
def vRootHex : String := sha256Hex vTxData

/-- Verifier state trusting vRootHex for chain chainA, block 5. -/
def verSt0 : VerState := (setTrustedRoot initVerifier 100 "chainA" "5" vRootHex "p").2

/-- First verification of vTxData against verSt0. -/
def verCall1 : Except VerErr VerificationRecord × VerState :=
  verifyTransaction verSt0 200 "vid" "chainA" "5" vTxData []

/-- Second, identical verification, applied to the state the first one left. -/
def verCall2 : Except VerErr VerificationRecord × VerState :=
  verifyTransaction verCall1.2 200 "vid" "chainA" "5" vTxData []

instance {ε α : Type} [DecidableEq ε] [DecidableEq α] : DecidableEq (Except ε α) := fun x y =>
  match x, y with
  | .ok a, .ok b => if h : a = b then .isTrue (by rw [h]) else .isFalse (by simp [h])
  | .error a, .error b => if h : a = b then .isTrue (by rw [h]) else .isFalse (by simp [h])
  | .ok _, .error _ => .isFalse (by simp)
  | .error _, .ok _ => .isFalse (by simp)

/-! ## Association list lemmas -/

theorem lookupA_insertA_self {α : Type} (d : List (String × α)) (k : String) (v : α) :
    lookupA (insertA d k v) k = some v := by
  induction d with
  | nil => simp [insertA, lookupA]
  | cons p t ih =>
    by_cases h : p.1 = k
    · simp [insertA, lookupA, h]
    · simp [insertA, lookupA, h, ih]

theorem lookupA_insertA_ne {α : Type} (d : List (String × α)) (k k2 : String) (v : α)
    (h : k ≠ k2) : lookupA (insertA d k v) k2 = lookupA d k2 := by
  induction d with
  | nil => simp [insertA, lookupA, h]
  | cons p t ih =>
    by_cases hp : p.1 = k
    · simp [insertA, lookupA, hp, h]
    · simp [insertA, lookupA, hp, ih]

theorem lookupA_mem {α : Type} {d : List (String × α)} {k : String} {v : α}
    (h : lookupA d k = some v) : (k, v) ∈ d := by
  induction d with
  | nil => simp [lookupA] at h
  | cons p t ih =>
    by_cases hp : p.1 = k
    · simp [lookupA, hp] at h
      have hp2 : p = (k, v) := by cases p; simp_all
      rw [← hp2]
      exact List.mem_cons_self p t
    · simp [lookupA, hp] at h
      exact List.mem_cons_of_mem _ (ih h)

theorem mem_insertA {α : Type} {d : List (String × α)} {k : String} {v : α} {p : String × α}
    (h : p ∈ insertA d k v) : p = (k, v) ∨ p ∈ d := by
  induction d with
  | nil => simp [insertA] at h; simp [h]
  | cons q t ih =>
    by_cases hq : q.1 = k
    · simp [insertA, hq] at h
      rcases h with h | h
      · simp [h]
      · right; exact List.mem_cons_of_mem _ h
    · simp [insertA, hq] at h
      rcases h with h | h
      · right; simp [h]
      · rcases ih h with h2 | h2
        · simp [h2]
        · right; exact List.mem_cons_of_mem _ h2

theorem mem_removeA {α : Type} {d : List (String × α)} {k : String} {p : String × α}
    (h : p ∈ removeA d k) : p ∈ d := by
  induction d with
  | nil => simp [removeA] at h
  | cons q t ih =>
    by_cases hq : q.1 = k
    · simp [removeA, hq] at h
      exact List.mem_cons_of_mem _ h
    · simp [removeA, hq] at h
      rcases h with h | h
      · simp [h]
      · exact List.mem_cons_of_mem _ (ih h)

/-! ## Hex encoding injectivity -/

theorem hexDigit_inj : ∀ m, m < 16 → ∀ n, n < 16 → hexDigit m = hexDigit n → m = n := by decide

theorem byteHex_inj {a b : Nat} (ha : a < 256) (hb : b < 256) (h : byteHex a = byteHex b) :
    a = b := by
  unfold byteHex at h
  simp only [List.cons.injEq, and_true] at h
  obtain ⟨h1, h2⟩ := h
  have ha16 : a / 16 < 16 := by omega
  have hb16 : b / 16 < 16 := by omega
  rw [Nat.mod_eq_of_lt ha16, Nat.mod_eq_of_lt hb16] at h1
  have e1 := hexDigit_inj _ ha16 _ hb16 h1
  have e2 := hexDigit_inj _ (Nat.mod_lt a (by norm_num)) _ (Nat.mod_lt b (by norm_num)) h2
  omega

theorem hexChars_cons (a : Nat) (l : List Nat) : hexChars (a :: l) = byteHex a ++ hexChars l := rfl

theorem hexChars_inj : ∀ l r : List Nat, ByteList l → ByteList r →
    hexChars l = hexChars r → l = r := by
  intro l
  induction l with
  | nil =>
    intro r _ _ h
    cases r with
    | nil => rfl
    | cons b t => simp [hexChars_cons, byteHex, hexChars] at h
  | cons a t ih =>
    intro r hl hr h
    cases r with
    | nil => simp [hexChars_cons, byteHex, hexChars] at h
    | cons b u =>
      rw [hexChars_cons, hexChars_cons] at h
      simp only [byteHex, List.cons_append, List.nil_append, List.cons.injEq] at h
      obtain ⟨h1, h2, h3⟩ := h
      have ha : a < 256 := hl a (by simp)
      have hb : b < 256 := hr b (by simp)
      have hab : a = b := byteHex_inj ha hb (by simp [byteHex, h1, h2])
      have htu : t = u :=
        ih u (fun x hx => hl x (List.mem_cons_of_mem _ hx))
             (fun x hx => hr x (List.mem_cons_of_mem _ hx)) h3
      rw [hab, htu]

theorem bytesToHex_inj {l r : List Nat} (hl : ByteList l) (hr : ByteList r)
    (h : bytesToHex l = bytesToHex r) : l = r := by
  unfold bytesToHex at h
  exact hexChars_inj l r hl hr (by injection h)

/-! ## Claims C2 and C3: the two Merkle proof verifiers -/

set_option maxRecDepth 40000 in
/-- Claim C2 counterexample: at the concrete leaf cexLeaf, the one-element
    proof [(cexSib, left)] and the expected root cexRoot, the chaincode
    verifier accepts while the EVM verifier rejects, so the two verifiers are
    not equivalent. -/
theorem verifiers_disagree_concrete :
    ¬ verifiersAgree cexLeaf [(cexSib, true)] cexRoot := by
  unfold verifiersAgree
  decide

/-- Claim C2 (amended): the chaincode verifyMerkleProof and the EVM
    SidechainVerifier.verifyProof are not equivalent — with the left flag set
    the chaincode hashes accumulator then sibling while the EVM contract
    hashes sibling then accumulator, and the chaincode hashes the ASCII hex
    rendering while the contract hashes the raw bytes.  They agree on every
    empty proof, where both reduce to comparing the leaf with the expected
    root. -/
theorem verifiers_agree_empty_proof (leaf root : List Nat)
    (hl : ByteList leaf) (hr : ByteList root) : verifiersAgree leaf [] root := by
  unfold verifiersAgree verifyMerkleProof evmVerifyProof
  simp only [List.map_nil, List.foldl_nil]
  by_cases h : leaf = root
  · subst h
    simp
  · have hne : bytesToHex leaf ≠ bytesToHex root := fun hh => h (bytesToHex_inj hl hr hh)
    simp [h, hne]

/-- Witness for the amended claim C2 theorem at a concrete input. -/
theorem verifiers_agree_empty_proof_witness :
    ByteList [0] ∧ ByteList [255] ∧ verifiersAgree [0] [] [255] :=
  ⟨by unfold ByteList; decide, by unfold ByteList; decide,
   verifiers_agree_empty_proof [0] [255] (by unfold ByteList; decide)
     (by unfold ByteList; decide)⟩

set_option maxRecDepth 40000 in
/-- Claim C3 counterexample: with the left flag of the single proof element
    set, the chaincode verifier accepts the root obtained by hashing
    accumulator then sibling, while the fold the claim describes (sibling on
    the left when the flag is set) produces a different root — so verifyProof
    is not equivalent to the claimed fold. -/
theorem verify_disagrees_with_claimed_fold :
    verifyMerkleProof (bytesToHex cexLeaf) [⟨bytesToHex cexSib, true⟩] (bytesToHex cexRoot) = true
    ∧ specClaimFold (bytesToHex cexLeaf) [⟨bytesToHex cexSib, true⟩] ≠ bytesToHex cexRoot := by
  constructor
  · decide
  · decide

/-- Claim C3 (amended): verifyMerkleProof accepts exactly when the claimed
    fold applied with every flag negated reproduces the expected root: the
    code treats a set flag as the current accumulator being on the left, the
    opposite of the isLeftSibling reading of the spec data model. -/
theorem verify_iff_fold_flags_flipped (leaf : String) (proof : List ProofElem) (root : String) :
    verifyMerkleProof leaf proof root = true ↔
      specClaimFold leaf (proof.map flipElem) = root := by
  unfold verifyMerkleProof specClaimFold
  rw [List.foldl_map]
  have hstep : (fun (acc : String) (e : ProofElem) =>
      if (flipElem e).left then sha256Hex ((flipElem e).hash ++ acc)
      else sha256Hex (acc ++ (flipElem e).hash))
      = fun (acc : String) (e : ProofElem) =>
        if e.left then sha256Hex (acc ++ e.hash) else sha256Hex (e.hash ++ acc) := by
    funext acc e
    cases h : e.left <;> simp [flipElem, h]
  rw [hstep]
  exact beq_iff_eq

/-! ## Claims C1 and C5: the anchor registry -/

set_option maxRecDepth 40000 in
/-- Claim C1 (code bug evaluation): with the chaincode's initial validator set
    (three validators, two signatures required), anchorRoot accepts two copies
    of one validator's signature whose content is never cryptographically
    verified: both entries pass verifySignatures even though only one distinct
    validator signed and the signature bytes are arbitrary, so the anchor is
    stored — contradicting the claim that fewer than requiredSignatures
    distinct valid signers always fail with an authorization error. -/
theorem anchorRoot_accepts_duplicate_signatures :
    isOkE (anchorRoot initRegistry 1000 "tx1" "chainA" "7" "roothash" c1sigs "md").1 = true
    ∧ (verifySignatures (createMessageHash "chainA" "7" "roothash") c1sigs
        initRegistry.validators).length = 2
    ∧ (c1sigs.map Sig.validator).dedup.length = 1
    ∧ (lookupA (anchorRoot initRegistry 1000 "tx1" "chainA" "7" "roothash" c1sigs "md").2.anchors
        (createRootKey "chainA" "7")).isSome = true := by
  refine ⟨by decide, by decide, by decide, by decide⟩

/-- Claim C5: when an anchor already exists for (chainId, blockNumber), a
    second anchorRoot call fails whatever the signatures are — with the
    duplicate-anchor error whenever the inputs are non-empty — and leaves the
    registry state, in particular the stored anchor, unchanged; addValidator
    never touches stored anchors. -/
theorem anchorRoot_duplicate_rejected (st : RegState) (now : Nat)
    (txId chainId blockNumber merkleRoot : String) (sigs : List Sig) (metadata : String)
    (ha : (lookupA st.anchors (createRootKey chainId blockNumber)).isSome = true) :
    (anchorRoot st now txId chainId blockNumber merkleRoot sigs metadata).2 = st
    ∧ isOkE (anchorRoot st now txId chainId blockNumber merkleRoot sigs metadata).1 = false
    ∧ (chainId ≠ "" → blockNumber ≠ "" → merkleRoot ≠ "" →
        (anchorRoot st now txId chainId blockNumber merkleRoot sigs metadata).1
          = .error (.duplicateAnchor chainId blockNumber))
    ∧ ∀ v, (addValidator st v).2.anchors = st.anchors := by
  obtain ⟨a, haa⟩ := Option.isSome_iff_exists.mp ha
  have haddv : ∀ v, (addValidator st v).2.anchors = st.anchors := by
    intro v
    unfold addValidator
    split <;> rfl
  by_cases h1 : chainId = "" ∨ blockNumber = "" ∨ merkleRoot = ""
  · refine ⟨?_, ?_, ?_, haddv⟩
    · unfold anchorRoot; simp [h1]
    · unfold anchorRoot; simp [h1, isOkE]
    · intro hc hb hm
      exact absurd h1 (by simp [hc, hb, hm])
  · refine ⟨?_, ?_, ?_, haddv⟩
    · unfold anchorRoot; simp [h1, haa]
    · unfold anchorRoot; simp [h1, haa, isOkE]
    · intro hc hb hm
      unfold anchorRoot; simp [h1, haa]

/-- Witness for the claim C5 theorem at a concrete registry state holding an
    anchor for chain c, block 1. -/
theorem anchorRoot_duplicate_rejected_witness :
    (lookupA regW.anchors (createRootKey "c" "1")).isSome = true
    ∧ (anchorRoot regW 9 "t1" "c" "1" "r2" [] "mm").1 = .error (.duplicateAnchor "c" "1")
    ∧ (anchorRoot regW 9 "t1" "c" "1" "r2" [] "mm").2 = regW := by
  have h := anchorRoot_duplicate_rejected regW 9 "t1" "c" "1" "r2" [] "mm" (by decide)
  exact ⟨by decide, h.2.2.1 (by decide) (by decide) (by decide), h.1⟩

/-! ## Claims C4, C6, C9: coordinator code bugs shown on concrete runs -/

/-- Claim C4 (code bug evaluation): abort succeeds on a COMMITTED epoch and on
    a COMPLETED epoch and rewrites the status to ABORTED — the chaincode's
    abortEpoch never checks the current status, so committed epochs are not
    protected and the state machine regresses. -/
theorem abort_succeeds_after_commit :
    (lookupA committedE1.epochs "e1").map Epoch.status = some .committed
    ∧ isOkE (abort committedE1 30 "e1" "MANUAL_ABORT").1 = true
    ∧ (lookupA (abort committedE1 30 "e1" "MANUAL_ABORT").2.epochs "e1").map Epoch.status
        = some .aborted
    ∧ (lookupA completedE1.epochs "e1").map Epoch.status = some .completed
    ∧ isOkE (abort completedE1 40 "e1" "LATE").1 = true
    ∧ (lookupA (abort completedE1 40 "e1" "LATE").2.epochs "e1").map Epoch.status
        = some .aborted := by
  decide

/-- Claim C6 (code bug evaluation): after epoch e3 reached the terminal
    ABORTED status, beginEpoch accepts the same epochId again and overwrites
    the stored record with a fresh PREPARING epoch — the duplicate check only
    consults ACTIVE_EPOCHS, which terminal transitions empty.  The
    empty-participant-list rejection does hold. -/
theorem beginEpoch_reopens_terminal_epoch :
    (lookupA abortedE3.epochs "e3").map Epoch.status = some .aborted
    ∧ isOkE (beginEpoch abortedE3 20 "coord" "e3" ["B"] 1000 "m").1 = true
    ∧ (lookupA (beginEpoch abortedE3 20 "coord" "e3" ["B"] 1000 "m").2.epochs "e3").map
        Epoch.status = some .preparing
    ∧ (lookupA (beginEpoch abortedE3 20 "coord" "e3" ["B"] 1000 "m").2.epochs "e3").map
        Epoch.participants = some ["B"]
    ∧ (beginEpoch coordInit 0 "coord" "e9" [] 1000 "m").1 = .error .emptyParticipants := by
  decide

/-- Claim C9 (code bug evaluation): confirmCommit called for B, who is not a
    participant of the committed epoch e1, reports success instead of failing
    with a not-a-participant error, silently leaving the confirmation map
    untouched.  The WrongState guard and the COMPLETED transition on the real
    participant's confirmation do hold. -/
theorem confirmCommit_accepts_non_participant :
    (lookupA committedE1.completed "e1").map (fun e => e.participants.contains "B") = some false
    ∧ (confirmCommit committedE1 30 "e1" "B").1 = .ok ⟨"e1", "B", true, false⟩
    ∧ (confirmCommit committedE1 30 "e1" "B").2 = committedE1
    ∧ (confirmCommit committedE1 30 "e1" "A").1 = .ok ⟨"e1", "A", true, true⟩
    ∧ (lookupA (confirmCommit committedE1 30 "e1" "A").2.completed "e1").map Epoch.status
        = some .completed
    ∧ (confirmCommit timeoutSt 30 "e2" "A").1 = .error (.committedEpochNotFound "e2") := by
  decide

/-! ## Claim C7: prepare after the deadline -/

theorem prepare_wrong_state (st : CoordState) (now : Nat) (epochId pid data : String) (e : Epoch)
    (hid : epochId ≠ "") (hpid : pid ≠ "")
    (he : lookupA st.epochs epochId = some e) (hs : e.status ≠ .preparing) :
    (prepare st now epochId pid data).1 = .error (.wrongState epochId e.status)
    ∧ (prepare st now epochId pid data).2 = st := by
  constructor <;> (unfold prepare; simp [hid, hpid, he, hs])

theorem abortInternal_epochs (st : CoordState) (now : Nat) (epochId reason : String) (e : Epoch)
    (he : lookupA st.epochs epochId = some e) :
    (abortEpochInternal st now epochId reason).2.epochs
      = insertA st.epochs epochId
          { e with
            status := .aborted, phase := "COMPLETED",
            abortTime := some now, abortReason := some reason } := by
  unfold abortEpochInternal
  simp [he]

/-- Claim C7: a prepare call for a valid, still-waiting participant of a
    PREPARING epoch whose deadline has passed does not mark the participant
    prepared: it aborts the epoch with reason TIMEOUT and fails with the
    timeout error; and every later prepare call on the epoch aborted this way
    fails with the wrong-state error and leaves the state unchanged. -/
theorem prepare_timeout_aborts (st : CoordState) (now : Nat)
    (epochId participantId data : String) (e : Epoch)
    (he : lookupA st.epochs epochId = some e)
    (hid : epochId ≠ "") (hpid : participantId ≠ "")
    (hstatus : e.status = .preparing)
    (hmem : participantId ∈ e.participants)
    (hwait : (prepOf e participantId).status = .waiting)
    (htime : now - e.startTime > e.timeout) :
    (prepare st now epochId participantId data).1 = .error (.epochTimedOut epochId)
    ∧ (∃ e2, lookupA (prepare st now epochId participantId data).2.epochs epochId = some e2
        ∧ e2.status = .aborted ∧ e2.abortReason = some "TIMEOUT"
        ∧ (prepOf e2 participantId).status = .waiting)
    ∧ (∀ pid2 now2 data2, pid2 ≠ "" →
        (prepare (prepare st now epochId participantId data).2 now2 epochId pid2 data2).1
          = .error (.wrongState epochId .aborted)
        ∧ (prepare (prepare st now epochId participantId data).2 now2 epochId pid2 data2).2
          = (prepare st now epochId participantId data).2) := by
  have hres : prepare st now epochId participantId data
      = (.error (.epochTimedOut epochId), (abortEpochInternal st now epochId "TIMEOUT").2) := by
    unfold prepare
    simp [hid, hpid, he, hstatus, hmem, hwait, htime]
  have hlook : lookupA (prepare st now epochId participantId data).2.epochs epochId
      = some { e with
               status := .aborted, phase := "COMPLETED",
               abortTime := some now, abortReason := some "TIMEOUT" } := by
    rw [hres]
    rw [abortInternal_epochs st now epochId "TIMEOUT" e he]
    exact lookupA_insertA_self _ _ _
  refine ⟨by rw [hres], ⟨_, hlook, rfl, rfl, hwait⟩, ?_⟩
  intro pid2 now2 data2 hpid2
  exact prepare_wrong_state _ now2 epochId pid2 data2 _ hid hpid2 hlook (by simp)

/-- Witness for the claim C7 theorem: epoch e2 began at time 0 with a 1000 ms
    timeout; at time 2000 participant A's prepare fails with the timeout
    error, the epoch is aborted with reason TIMEOUT, and B's later prepare
    fails with the wrong-state error. -/
theorem prepare_timeout_aborts_witness :
    (prepare timeoutSt 2000 "e2" "A" "d").1 = .error (.epochTimedOut "e2")
    ∧ (prepare (prepare timeoutSt 2000 "e2" "A" "d").2 2001 "e2" "B" "d").1
        = .error (.wrongState "e2" .aborted) := by
  have h := prepare_timeout_aborts timeoutSt 2000 "e2" "A" "d" timeoutEpoch
    (by decide) (by decide) (by decide) (by decide) (by decide) (by decide) (by decide)
  exact ⟨h.1, (h.2.2 "B" 2001 "d" (by decide)).1⟩

/-! ## Claim C8: reachable-state invariant and the commit characterization -/

theorem storeInv_insert {d : List (String × Epoch)} {k : String} {v : Epoch}
    (h : StoreInv d) (hk : k ≠ "") (hv : EpochInv v) : StoreInv (insertA d k v) := by
  intro p hp
  rcases mem_insertA hp with h1 | h1
  · rw [h1]; exact ⟨hv, hk⟩
  · exact h p h1

theorem storeInv_remove {d : List (String × Epoch)} {k : String} (h : StoreInv d) :
    StoreInv (removeA d k) := fun p hp => h p (mem_removeA hp)

theorem inv_abortInternal (st : CoordState) (now : Nat) (id reason : String)
    (hinv : CoordInv st) : CoordInv (abortEpochInternal st now id reason).2 := by
  unfold abortEpochInternal
  split
  · exact hinv
  next e heq =>
    have hke := hinv.1 _ (lookupA_mem heq)
    refine ⟨storeInv_insert hinv.1 hke.2 ?_, storeInv_remove hinv.2.1, hinv.2.2.1,
            storeInv_insert hinv.2.2.2 hke.2 ?_⟩ <;>
      exact ⟨hke.1.1, by intro h; simp at h, by intro h; simp at h⟩

theorem allPrepared_fresh (ps : List String) (hne : ps ≠ []) (eid c m : String) (now t : Nat) :
    allPrepared
      { epochId := eid, status := .preparing, participants := ps,
        preparations := ps.map fun p => (p, freshPrep), startTime := now, timeout := t,
        coordinator := c, metadata := m, phase := "PREPARE", commitConfirmations := none,
        commitTime := none, abortTime := none, abortReason := none,
        completionTime := none } = false := by
  cases ps with
  | nil => exact absurd rfl hne
  | cons p0 rest =>
    rw [Bool.eq_false_iff]
    intro hall
    unfold allPrepared at hall
    have h0 := List.all_eq_true.mp hall p0 (by simp)
    simp [prepOf, lookupA, freshPrep] at h0

theorem inv_beginEpoch (st : CoordState) (now : Nat) (c id : String) (ps : List String)
    (t : Nat) (m : String) (hinv : CoordInv st) : CoordInv (beginEpoch st now c id ps t m).2 := by
  unfold beginEpoch
  split
  · exact hinv
  next hid =>
    split
    · exact hinv
    next hps =>
      split
      · exact hinv
      next heq =>
        have hne : ps ≠ [] := by
          intro h
          rw [h] at hps
          simp at hps
        refine ⟨storeInv_insert hinv.1 hid ?_, storeInv_insert hinv.2.1 hid ?_,
                hinv.2.2.1, hinv.2.2.2⟩ <;>
          exact ⟨hne, by intro h; simp at h, fun _ => allPrepared_fresh ps hne id c m now t⟩

theorem inv_prepare (st : CoordState) (now : Nat) (id pid d : String)
    (hinv : CoordInv st) : CoordInv (prepare st now id pid d).2 := by
  unfold prepare
  split
  · exact hinv
  next hid =>
    split
    · exact hinv
    next e heq =>
      split
      · exact hinv
      next hstat =>
        split
        · exact hinv
        next hmem =>
          split
          · exact hinv
          next hwait =>
            split
            next htime => exact inv_abortInternal st now id "TIMEOUT" hinv
            next htime =>
              have hidne : id ≠ "" := fun h => hid (Or.inl h)
              have hke := hinv.1 _ (lookupA_mem heq)
              have hstat2 : e.status = .preparing := by
                by_cases h : e.status = .preparing
                · exact h
                · exact absurd h (by simpa using hstat)
              by_cases hap : allPrepared
                  { e with preparations :=
                      insertA e.preparations pid ⟨.prepared, some now, some d⟩ } = true
              · refine ⟨storeInv_insert hinv.1 hidne ?_, storeInv_insert hinv.2.1 hidne ?_,
                        hinv.2.2.1, hinv.2.2.2⟩ <;>
                · simp only [hap, if_true]
                  exact ⟨hke.1.1, fun _ => hap, by intro h; simp at h⟩
              · refine ⟨storeInv_insert hinv.1 hidne ?_, storeInv_insert hinv.2.1 hidne ?_,
                        hinv.2.2.1, hinv.2.2.2⟩ <;>
                · simp only [hap, if_false]
                  refine ⟨hke.1.1, by intro h; simp [hstat2] at h, fun _ => ?_⟩
                  exact Bool.eq_false_iff.mpr hap

theorem inv_commit (st : CoordState) (now : Nat) (id : String)
    (hinv : CoordInv st) : CoordInv (commit st now id).2 := by
  unfold commit
  split
  · exact hinv
  next hid =>
    split
    · exact hinv
    next e heq =>
      split
      · exact hinv
      next hstat =>
        split
        · exact hinv
        next hap =>
          have hke := hinv.1 _ (lookupA_mem heq)
          refine ⟨storeInv_insert hinv.1 hid ?_, storeInv_remove hinv.2.1,
                  storeInv_insert hinv.2.2.1 hid ?_, hinv.2.2.2⟩ <;>
            exact ⟨hke.1.1, by intro h; simp at h, by intro h; simp at h⟩

theorem inv_confirmCommit (st : CoordState) (now : Nat) (id pid : String)
    (hinv : CoordInv st) : CoordInv (confirmCommit st now id pid).2 := by
  unfold confirmCommit
  split
  · exact hinv
  next e heq =>
    split
    · exact hinv
    next hstat =>
      have hke := hinv.2.2.1 _ (lookupA_mem heq)
      have hstat2 : e.status = .committed := by
        by_cases h : e.status = .committed
        · exact h
        · exact absurd h (by simpa using hstat)
      by_cases hac : (e.participants.all fun p =>
          (confOf (if (lookupA (e.commitConfirmations.getD []) pid).isSome then
              insertA (e.commitConfirmations.getD []) pid ⟨.confirmed, some now⟩
            else e.commitConfirmations.getD []) p).status == .confirmed) = true
      · refine ⟨storeInv_insert hinv.1 hke.2 ?_, hinv.2.1,
                storeInv_insert hinv.2.2.1 hke.2 ?_, hinv.2.2.2⟩ <;>
          · simp only [hac, if_true]
            exact ⟨hke.1.1, by intro h; simp at h, by intro h; simp at h⟩
      · refine ⟨storeInv_insert hinv.1 hke.2 ?_, hinv.2.1,
                storeInv_insert hinv.2.2.1 hke.2 ?_, hinv.2.2.2⟩ <;>
          · simp only [hac, if_false]
            refine ⟨hke.1.1, ?_, ?_⟩ <;> (intro h; simp [hstat2] at h)

theorem inv_cleanup_fold (now : Nat) (l : List (String × Epoch)) :
    ∀ acc : List String × CoordState, CoordInv acc.2 →
    CoordInv ((l.foldl
      (fun acc p =>
        if now - p.2.startTime > p.2.timeout then
          (acc.1 ++ [p.1], (abortEpochInternal acc.2 now p.1 "TIMEOUT").2)
        else acc)
      acc).2) := by
  induction l with
  | nil => intro acc h; exact h
  | cons p t ih =>
    intro acc h
    simp only [List.foldl_cons]
    by_cases hc : now - p.2.startTime > p.2.timeout
    · simp only [if_pos hc]
      exact ih _ (inv_abortInternal _ _ _ _ h)
    · simp only [if_neg hc]
      exact ih _ h

theorem inv_cleanupTimeouts (st : CoordState) (now : Nat)
    (hinv : CoordInv st) : CoordInv (cleanupTimeouts st now).2 := by
  unfold cleanupTimeouts
  exact inv_cleanup_fold now st.active ([], st) hinv

theorem inv_abort (st : CoordState) (now : Nat) (id reason : String)
    (hinv : CoordInv st) : CoordInv (abort st now id reason).2 :=
  inv_abortInternal st now id reason hinv

theorem inv_coordInit : CoordInv coordInit := by
  refine ⟨?_, ?_, ?_, ?_⟩ <;> (intro p hp; simp [coordInit] at hp)

theorem inv_applyOp (st : CoordState) (op : Op) (hinv : CoordInv st) :
    CoordInv (applyOp st op) := by
  cases op with
  | beginOp now c id ps t m => exact inv_beginEpoch st now c id ps t m hinv
  | prepareOp now id pid d => exact inv_prepare st now id pid d hinv
  | commitOp now id => exact inv_commit st now id hinv
  | abortOp now id r => exact inv_abort st now id r hinv
  | confirmOp now id pid => exact inv_confirmCommit st now id pid hinv
  | cleanupOp now => exact inv_cleanupTimeouts st now hinv

theorem inv_runOps (ops : List Op) : CoordInv (runOps ops) := by
  unfold runOps
  have h : ∀ st : CoordState, CoordInv st → CoordInv (ops.foldl applyOp st) := by
    induction ops with
    | nil => intro st h; exact h
    | cons op t ih =>
      intro st h
      simp only [List.foldl_cons]
      exact ih _ (inv_applyOp st op h)
  exact h coordInit inv_coordInit

/-- Claim C8: in every reachable coordinator state, commit succeeds exactly
    when the epoch exists in the PREPARED status with every participant
    prepared; PREPARED is reached only when all participants are prepared
    (the last prepare call makes that transition); and whenever some
    participant has not prepared, commit fails with the wrong-state error and
    leaves the state unchanged. -/
theorem commit_iff_all_prepared (ops : List Op) (now : Nat) (epochId : String) :
    (isOkE (commit (runOps ops) now epochId).1 = true
      ↔ ∃ e, lookupA (runOps ops).epochs epochId = some e
          ∧ e.status = .prepared ∧ allPrepared e = true)
    ∧ (∀ e, lookupA (runOps ops).epochs epochId = some e → e.status = .prepared →
        allPrepared e = true)
    ∧ (∀ e, lookupA (runOps ops).epochs epochId = some e → allPrepared e = false →
        (commit (runOps ops) now epochId).1 = .error (.wrongState epochId e.status)
        ∧ (commit (runOps ops) now epochId).2 = runOps ops) := by
  have hinv := inv_runOps ops
  have hb : ∀ e, lookupA (runOps ops).epochs epochId = some e → e.status = .prepared →
      allPrepared e = true := fun e he hp => ((hinv.1 _ (lookupA_mem he)).1).2.1 hp
  refine ⟨⟨?_, ?_⟩, hb, ?_⟩
  · intro h
    by_cases hid : epochId = ""
    · rw [hid] at h
      simp [commit, isOkE] at h
    · cases hl : lookupA (runOps ops).epochs epochId with
      | none => simp [commit, hid, hl, isOkE] at h
      | some e =>
        by_cases hs : e.status = .prepared
        · by_cases hap : allPrepared e = true
          · exact ⟨e, rfl, hs, hap⟩
          · simp [commit, hid, hl, hs, hap, isOkE] at h
        · simp [commit, hid, hl, hs, isOkE] at h
  · rintro ⟨e, hl, hs, hap⟩
    have hid : epochId ≠ "" := (hinv.1 _ (lookupA_mem hl)).2
    simp [commit, hid, hl, hs, hap, isOkE]
  · intro e he hap
    have hid : epochId ≠ "" := (hinv.1 _ (lookupA_mem he)).2
    have hs : e.status ≠ .prepared := by
      intro h
      rw [hb e he h] at hap
      cases hap
    constructor
    · simp [commit, hid, he, hs]
    · simp [commit, hid, he, hs]


/-- Witness for the claim C8 theorem: after begin and the lone participant's
    prepare, epoch e1 is PREPARED with every participant prepared and commit
    succeeds. -/
theorem commit_iff_all_prepared_witness :
    isOkE (commit (runOps preparedOpsW) 20 "e1").1 = true
    ∧ ∃ e, lookupA (runOps preparedOpsW).epochs "e1" = some e
        ∧ e.status = .prepared ∧ allPrepared e = true := by
  have h := commit_iff_all_prepared preparedOpsW 20 "e1"
  exact ⟨by decide, h.1.mp (by decide)⟩

/-! ## Claim C10: verifier idempotence -/

theorem verifyTransaction_success (st : VerState) (now : Nat) (vid sc bn txd : String)
    (proof : List ProofElem) (tr : TrustedRoot)
    (hsc : sc ≠ "") (hbn : bn ≠ "") (htxd : txd ≠ "")
    (htr : lookupA st.trustedRoots (trKey sc bn) = some tr)
    (hvalid : verifyMerkleProof (sha256Hex txd) proof tr.merkleRoot = true) :
    verifyTransaction st now vid sc bn txd proof
      = (.ok ⟨sha256Hex txd, sc, parseIntNat bn, txd, now, vid, "VERIFIED"⟩,
         { st with
           verifications := insertA st.verifications ("verification~" ++ sha256Hex txd)
             ⟨sha256Hex txd, sc, parseIntNat bn, txd, now, vid, "VERIFIED"⟩,
           trustedRoots := insertA st.trustedRoots (trKey sc bn)
             { tr with verifiedTransactions :=
                 tr.verifiedTransactions ++ [sha256Hex txd] } }) := by
  unfold verifyTransaction
  simp [hsc, hbn, htxd, htr, hvalid]

/-- Claim C10 (amended): repeating a successful verifyTransaction with the
    same arguments succeeds again with the same result and re-stores an
    identical VerificationRecord; the set of verified transaction hashes is
    unchanged by the second call, but the stored verified-transaction list
    gains a duplicate entry, so the literal stored state is not idempotent. -/
theorem verifyTransaction_repeat (st : VerState) (now : Nat) (vid sc bn txd : String)
    (proof : List ProofElem) (tr : TrustedRoot)
    (hsc : sc ≠ "") (hbn : bn ≠ "") (htxd : txd ≠ "")
    (htr : lookupA st.trustedRoots (trKey sc bn) = some tr)
    (hvalid : verifyMerkleProof (sha256Hex txd) proof tr.merkleRoot = true) :
    isOkE (verifyTransaction st now vid sc bn txd proof).1 = true
    ∧ (verifyTransaction (verifyTransaction st now vid sc bn txd proof).2
        now vid sc bn txd proof).1 = (verifyTransaction st now vid sc bn txd proof).1
    ∧ lookupA (verifyTransaction (verifyTransaction st now vid sc bn txd proof).2
          now vid sc bn txd proof).2.verifications ("verification~" ++ sha256Hex txd)
        = lookupA (verifyTransaction st now vid sc bn txd proof).2.verifications
            ("verification~" ++ sha256Hex txd)
    ∧ (lookupA (verifyTransaction st now vid sc bn txd proof).2.trustedRoots
          (trKey sc bn)).map TrustedRoot.verifiedTransactions
        = some (tr.verifiedTransactions ++ [sha256Hex txd])
    ∧ (lookupA (verifyTransaction (verifyTransaction st now vid sc bn txd proof).2
          now vid sc bn txd proof).2.trustedRoots (trKey sc bn)).map
            TrustedRoot.verifiedTransactions
        = some (tr.verifiedTransactions ++ [sha256Hex txd] ++ [sha256Hex txd])
    ∧ ∀ x, x ∈ tr.verifiedTransactions ++ [sha256Hex txd] ++ [sha256Hex txd]
        ↔ x ∈ tr.verifiedTransactions ++ [sha256Hex txd] := by
  have h1 := verifyTransaction_success st now vid sc bn txd proof tr hsc hbn htxd htr hvalid
  have htr2 : lookupA (verifyTransaction st now vid sc bn txd proof).2.trustedRoots (trKey sc bn)
      = some { tr with verifiedTransactions := tr.verifiedTransactions ++ [sha256Hex txd] } := by
    rw [h1]
    exact lookupA_insertA_self _ _ _
  have h2 := verifyTransaction_success (verifyTransaction st now vid sc bn txd proof).2
    now vid sc bn txd proof
    { tr with verifiedTransactions := tr.verifiedTransactions ++ [sha256Hex txd] }
    hsc hbn htxd htr2 hvalid
  refine ⟨?_, ?_, ?_, ?_, ?_, ?_⟩
  · rw [h1]
    rfl
  · rw [h2, h1]
  · rw [h2, h1]
    simp [lookupA_insertA_self]
  · rw [htr2]
    simp
  · rw [h2]
    simp [lookupA_insertA_self]
  · intro x
    simp [List.mem_append]


set_option maxRecDepth 40000 in
/-- Claim C10 counterexample: verifying vTxData twice against the trusted root
    equal to its hash succeeds both times, but the state after the second call
    differs from the state after the first: the verified-transaction list
    holds the hash twice. -/
theorem verifyTransaction_second_call_changes_state :
    isOkE verCall2.1 = true
    ∧ verCall2.2 ≠ verCall1.2
    ∧ (lookupA verCall1.2.trustedRoots (trKey "chainA" "5")).map TrustedRoot.verifiedTransactions
        = some [vRootHex]
    ∧ (lookupA verCall2.2.trustedRoots (trKey "chainA" "5")).map TrustedRoot.verifiedTransactions
        = some [vRootHex, vRootHex] := by
  refine ⟨by decide, by decide, by decide, by decide⟩

set_option maxRecDepth 40000 in
/-- Witness for the amended claim C10 theorem at the concrete verifier state
    verSt0. -/
theorem verifyTransaction_repeat_witness :
    isOkE verCall1.1 = true ∧ verCall2.1 = verCall1.1 := by
  have h := verifyTransaction_repeat verSt0 200 "vid" "chainA" "5" vTxData []
    ⟨"chainA", 5, vRootHex, 100, "p", "TRUSTED", []⟩
    (by decide) (by decide) (by decide) (by decide) (by decide)
  exact ⟨h.1, h.2.1⟩

end Scimp
